import Mathlib

/-!
# Verification of Rodionov regime-shift detection

Shallow embedding of `rodionov_regimes` (src/rodionov.py) and proofs of the
specification's claims about it.  Real-valued data is modelled over `ℚ`
(exact arithmetic); the two external numeric primitives used by the source —
the Student-t inverse CDF `scipy.stats.t.ppf` and `np.sqrt` — are passed in
as function parameters, since the source treats them as black boxes.
-/

set_option autoImplicit false

namespace Rodionov

/-- `np.mean(xs)` : arithmetic mean of a list (0 on the empty list, where
numpy would produce NaN; the empty case is never reached under the
preconditions). -/
def npMean (xs : List ℚ) : ℚ := xs.sum / xs.length

/-- `np.var(xs)` : population variance (mean of squared deviations from the
mean; divisor `xs.length`, numpy's default `ddof=0`). -/
def npVar (xs : List ℚ) : ℚ := npMean (xs.map (fun x => (x - npMean xs) ^ 2))

/-- `avg_var = np.mean([np.var(data[i:(i+l)]) for i in range(n-l)])`
(src/rodionov.py line 33). -/
def avg_var (data : List ℚ) (l : ℕ) : ℚ :=
  npMean ((List.range (data.length - l)).map (fun i => npVar ((data.drop i).take l)))

/-- The inner RSI accumulation loop (src/rodionov.py lines 52-61): fold over
the forward window `data[j+1 : min(j+l, n)]` (passed as the list `ws`),
adding the signed, normalized deviation of each value from `test_r2`, and
clamping to `0` with early exit as soon as the accumulator drops below zero.
`avl = avg_var * l`, `dj = data[j]`. -/
def rsiAccum (avl dj r1 tr2 : ℚ) : List ℚ → ℚ → ℚ
  | [], s => s
  | x :: ws, s =>
    let s1 := if r1 < dj then s + (x - tr2) / avl
              else if dj < r1 then s + (tr2 - x) / avl
              else s
    if s1 < 0 then 0 else rsiAccum avl dj r1 tr2 ws s1

/-- The mutable state threaded through the scan of `rodionov_regimes`:
outer index `i`, current regime mean `r1`, its bounds, the accumulated
shift indices, and the RSI trace array. -/
structure RState where
  i : ℕ
  r1 : ℚ
  r1_lower : ℚ
  r1_upper : ℚ
  shifts : List ℕ
  rsi : List ℚ
deriving DecidableEq

/-- `test_r2 = r1_lower if data[i] < r1_lower else r1_upper`
(src/rodionov.py line 49): the crossed bound of the old regime. -/
def candTr2 (data : List ℚ) (s : RState) : ℚ :=
  if data.getD s.i 0 < s.r1_lower then s.r1_lower else s.r1_upper

/-- The RSI value accumulated for the candidate at `j = s.i` over the window
`data[j+1 : min(j+l, n)]` (src/rodionov.py lines 52-61). -/
def candRSI (data : List ℚ) (l : ℕ) (av : ℚ) (s : RState) : ℚ :=
  rsiAccum (av * l) (data.getD s.i 0) s.r1 (candTr2 data s)
    ((data.drop (s.i + 1)).take (l - 1)) 0

/-- `r2 = np.mean(data[j:min(j+l,n)])` (src/rodionov.py line 66): the new
regime mean, over a window truncated at the end of the series. -/
def newMean (data : List ℚ) (l : ℕ) (s : RState) : ℚ :=
  npMean ((data.drop s.i).take l)

/-- One iteration of the `while i < n` loop body (src/rodionov.py lines
42-76), assuming `s.i < data.length`.  On a candidate shift the outer index
advances by 2 (`i = j + 1` followed by `i += 1`); otherwise by 1. -/
def stepBody (data : List ℚ) (l : ℕ) (av diff : ℚ) (s : RState) : RState :=
  let x := data.getD s.i 0
  if x < s.r1_lower ∨ s.r1_upper < x then
    let v := candRSI data l av s
    let rsi1 := s.rsi.set s.i v
    if 0 < v then
      let r2 := newMean data l s
      ⟨s.i + 2, r2, r2 - diff, r2 + diff, s.shifts ++ [s.i], rsi1⟩
    else
      ⟨s.i + 2, s.r1, s.r1_lower, s.r1_upper, s.shifts, rsi1⟩
  else
    ⟨s.i + 1, (((l : ℚ) - 1) * s.r1 + x) / l, s.r1_lower, s.r1_upper, s.shifts, s.rsi⟩

/-- The `while i < n` loop, driven by fuel.  Each executed iteration
increases `i` by at least 1, so `data.length` units of fuel always reach the
exit condition `i ≥ n`: with that fuel this is exactly the source loop. -/
def scanLoop (data : List ℚ) (l : ℕ) (av diff : ℚ) : ℕ → RState → RState
  | 0, s => s
  | fuel + 1, s =>
    if s.i < data.length then scanLoop data l av diff fuel (stepBody data l av diff s)
    else s

/-- The state after step 3 of the source: `r1 = np.mean(data[:l])`, bounds
`r1 ∓ diff`, `i = l + 1`, empty shift list, all-zero RSI trace. -/
def initState (data : List ℚ) (l : ℕ) (diff : ℚ) : RState :=
  let r1 := npMean (data.take l)
  ⟨l + 1, r1, r1 - diff, r1 + diff, [], List.replicate data.length 0⟩

/-- Steps 3-7 of `rodionov_regimes`: the full scan, given the threshold
quantities `av = avg_var` and `diff`. -/
def rodionov_scan (data : List ℚ) (l : ℕ) (av diff : ℚ) : List ℕ × List ℚ :=
  let s := scanLoop data l av diff data.length (initState data l diff)
  (s.shifts, s.rsi)

/-- `rodionov_regimes(data, l, p)` (src/rodionov.py).  `tppf` models
`scipy.stats.t.ppf` (arguments: probability, degrees of freedom) and
`sqrtF` models `np.sqrt`; both are external numeric primitives of the
source.  `t_stat = |t.ppf(p, 2l-2)|`, `diff = t_stat * sqrt(2*avg_var/l)`. -/
def rodionov_regimes (tppf : ℚ → ℤ → ℚ) (sqrtF : ℚ → ℚ) (data : List ℚ)
    (l : ℕ) (p : ℚ) : List ℕ × List ℚ :=
  let t_stat := |tppf p (2 * (l : ℤ) - 2)|
  let av := avg_var data l
  let diff := t_stat * sqrtF (2 * av / l)
  rodionov_scan data l av diff

/-! ## Spec-side model definitions (for refinement statements)

These follow the wording of the specification, not the source; the
refinement theorems below compare them with the source-side definitions. -/

/-- Modelled from the spec: the RSI accumulation loop written over explicit
data indices, "for `k` from `j+1` to `min(j+l, n) - 1`" — `cnt` is the
number of indices still to process, `k` the current index.  If the
candidate is an upward deviation (`data[j] > r1`) add
`(data[k] - test_r2) / (avg_var * l)`; if downward add
`(test_r2 - data[k]) / (avg_var * l)`; clamp to `0` and stop as soon as the
sum drops below zero. -/
def rsiSpecGo (data : List ℚ) (avl dj r1 tr2 : ℚ) : ℕ → ℕ → ℚ → ℚ
  | _, 0, s => s
  | k, cnt + 1, s =>
    let s1 := if r1 < dj then s + (data.getD k 0 - tr2) / avl
              else if dj < r1 then s + (tr2 - data.getD k 0) / avl
              else s
    if s1 < 0 then 0 else rsiSpecGo data avl dj r1 tr2 (k + 1) cnt s1

/-- Modelled from the spec: the RSI accumulated for a candidate at index
`j`, ranging over `k ∈ [j+1, min(j+l, n))`. -/
def rsiSpec (data : List ℚ) (avl dj r1 tr2 : ℚ) (j l : ℕ) : ℚ :=
  rsiSpecGo data avl dj r1 tr2 (j + 1) (min (j + l) data.length - (j + 1)) 0

/-- Modelled from the spec: the population variance (divisor `l`, not
`l-1`) of the window `data[i : i+l]`, written over explicit indices. -/
def specWindowVar (data : List ℚ) (i l : ℕ) : ℚ :=
  ((List.range l).map (fun k =>
      (data.getD (i + k) 0 -
        ((List.range l).map (fun k1 => data.getD (i + k1) 0)).sum / (l : ℚ)) ^ 2)).sum /
    (l : ℚ)

/-- Modelled from the spec: `avg_var` as the arithmetic mean over start
offsets `i ∈ [0, n-l)` of the population variance of `data[i : i+l]`. -/
def specAvgVar (data : List ℚ) (l : ℕ) : ℚ :=
  (((List.range (data.length - l)).map (fun i => specWindowVar data i l)).sum) /
    ((data.length - l : ℕ) : ℚ)

/-- Modelled from the spec: `mean(data[j : min(j+l, n)])` over explicit
indices — the new regime mean with the window truncated at the end of the
series. -/
def specSliceMean (data : List ℚ) (j l : ℕ) : ℚ :=
  ((List.range (min (j + l) data.length - j)).map (fun k => data.getD (j + k) 0)).sum /
    ((min (j + l) data.length - j : ℕ) : ℚ)

/-- Invariant threaded through the scan: the RSI trace has the input's
length, entries at indices not yet visited are `0`, all entries are
non-negative, an entry is positive exactly when its index was recorded as a
shift, and the recorded shifts are strictly increasing, lie in
`[l+1, n-2]`, and precede the scan index. -/
def ScanInv (n l : ℕ) (s : RState) : Prop :=
  s.rsi.length = n ∧
  l + 1 ≤ s.i ∧
  (∀ m, s.i ≤ m → s.rsi.getD m 0 = 0) ∧
  (∀ m, 0 ≤ s.rsi.getD m 0) ∧
  (∀ m, 0 < s.rsi.getD m 0 ↔ m ∈ s.shifts) ∧
  s.shifts.Pairwise (fun a b => a < b) ∧
  ∀ j ∈ s.shifts, l + 1 ≤ j ∧ j + 1 < n ∧ j < s.i

/-! ## Basic lemmas about the embedding -/

theorem getD_set_self (xs : List ℚ) (m : ℕ) (v : ℚ) (h : m < xs.length) :
    (xs.set m v).getD m 0 = v := by
  rw [List.getD_eq_getElem?_getD, List.getElem?_set_self h, Option.getD_some]

theorem getD_set_ne (xs : List ℚ) (m k : ℕ) (v : ℚ) (h : m ≠ k) :
    (xs.set m v).getD k 0 = xs.getD k 0 := by
  rw [List.getD_eq_getElem?_getD, List.getElem?_set_ne h,
    List.getD_eq_getElem?_getD]

theorem getD_replicate_zero (n m : ℕ) :
    (List.replicate n (0 : ℚ)).getD m 0 = 0 := by
  rw [List.getD_eq_getElem?_getD]
  rcases lt_or_le m n with h | h
  · rw [List.getElem?_replicate_of_lt h, Option.getD_some]
  · rw [List.getElem?_eq_none (by simpa using h), Option.getD_none]

/-- The RSI accumulator never goes below its clamped floor: starting from a
non-negative value it stays non-negative (source lines 58-61 clamp to 0). -/
theorem rsiAccum_nonneg (avl dj r1 tr2 : ℚ) :
    ∀ (ws : List ℚ) (s : ℚ), 0 ≤ s → 0 ≤ rsiAccum avl dj r1 tr2 ws s
  | [], s, hs => hs
  | x :: ws, s, hs => by
    simp only [rsiAccum]
    generalize (if r1 < dj then s + (x - tr2) / avl
      else if dj < r1 then s + (tr2 - x) / avl else s) = s1
    by_cases h : s1 < 0
    · rw [if_pos h]
    · rw [if_neg h]
      exact rsiAccum_nonneg avl dj r1 tr2 ws s1 (not_lt.mp h)

theorem rsiAccum_nil (avl dj r1 tr2 s : ℚ) :
    rsiAccum avl dj r1 tr2 [] s = s := rfl

/-- A strictly positive accumulated RSI requires a non-empty window. -/
theorem ne_nil_of_rsiAccum_pos {avl dj r1 tr2 : ℚ} {ws : List ℚ}
    (h : 0 < rsiAccum avl dj r1 tr2 ws 0) : ws ≠ [] := by
  intro hnil
  rw [hnil, rsiAccum_nil] at h
  exact lt_irrefl 0 h

/-- Branch equation: in-bounds observation, smoothing update
(src/rodionov.py lines 72-74). -/
theorem stepBody_smooth (data : List ℚ) (l : ℕ) (av diff : ℚ) (s : RState)
    (h : ¬(data.getD s.i 0 < s.r1_lower ∨ s.r1_upper < data.getD s.i 0)) :
    stepBody data l av diff s =
      ⟨s.i + 1, (((l : ℚ) - 1) * s.r1 + data.getD s.i 0) / l,
        s.r1_lower, s.r1_upper, s.shifts, s.rsi⟩ := by
  simp only [stepBody]
  rw [if_neg h]

/-- Branch equation: candidate flagged and confirmed
(src/rodionov.py lines 45-69, `rsi[j] > 0` case). -/
theorem stepBody_confirm (data : List ℚ) (l : ℕ) (av diff : ℚ) (s : RState)
    (h : data.getD s.i 0 < s.r1_lower ∨ s.r1_upper < data.getD s.i 0)
    (hv : 0 < candRSI data l av s) :
    stepBody data l av diff s =
      ⟨s.i + 2, newMean data l s, newMean data l s - diff,
        newMean data l s + diff, s.shifts ++ [s.i],
        s.rsi.set s.i (candRSI data l av s)⟩ := by
  simp only [stepBody]
  rw [if_pos h, if_pos hv]

/-- Branch equation: candidate flagged but rejected
(src/rodionov.py lines 45-69, `rsi[j] == 0` case). -/
theorem stepBody_reject (data : List ℚ) (l : ℕ) (av diff : ℚ) (s : RState)
    (h : data.getD s.i 0 < s.r1_lower ∨ s.r1_upper < data.getD s.i 0)
    (hv : ¬0 < candRSI data l av s) :
    stepBody data l av diff s =
      ⟨s.i + 2, s.r1, s.r1_lower, s.r1_upper, s.shifts,
        s.rsi.set s.i (candRSI data l av s)⟩ := by
  simp only [stepBody]
  rw [if_pos h, if_neg hv]

/-! ## The scan invariant -/

theorem scanInv_init (data : List ℚ) (l : ℕ) (diff : ℚ) :
    ScanInv data.length l (initState data l diff) := by
  simp only [ScanInv, initState]
  refine ⟨List.length_replicate _ _, le_refl _, ?_, ?_, ?_, List.Pairwise.nil, ?_⟩
  · intro m _
    exact getD_replicate_zero _ _
  · intro m
    rw [getD_replicate_zero]
  · intro m
    rw [getD_replicate_zero]
    simp
  · intro j hj
    exact absurd hj (List.not_mem_nil j)

theorem scanInv_step (data : List ℚ) (l : ℕ) (av diff : ℚ) (s : RState)
    (hi : s.i < data.length) (hinv : ScanInv data.length l s) :
    ScanInv data.length l (stepBody data l av diff s) := by
  obtain ⟨hlen, hil, hzero, hnn, hiff, hsort, hmem⟩ := hinv
  by_cases hout : data.getD s.i 0 < s.r1_lower ∨ s.r1_upper < data.getD s.i 0
  · have hvnn : 0 ≤ candRSI data l av s :=
      rsiAccum_nonneg _ _ _ _ _ _ (le_refl 0)
    have hnotmem : s.i ∉ s.shifts := fun hm => lt_irrefl s.i (hmem s.i hm).2.2
    have hset_len : (s.rsi.set s.i (candRSI data l av s)).length = data.length := by
      rw [List.length_set]
      exact hlen
    have hset_self :
        (s.rsi.set s.i (candRSI data l av s)).getD s.i 0 = candRSI data l av s :=
      getD_set_self _ _ _ (hlen ▸ hi)
    have hset_ne : ∀ m, m ≠ s.i →
        (s.rsi.set s.i (candRSI data l av s)).getD m 0 = s.rsi.getD m 0 :=
      fun m hm => getD_set_ne _ _ _ _ (Ne.symm hm)
    by_cases hv : 0 < candRSI data l av s
    · rw [stepBody_confirm data l av diff s hout hv]
      simp only [ScanInv]
      have hwne : (data.drop (s.i + 1)).take (l - 1) ≠ [] :=
        ne_nil_of_rsiAccum_pos hv
      have hi1 : s.i + 1 < data.length := by
        by_contra hle
        push_neg at hle
        rw [List.drop_eq_nil_of_le hle, List.take_nil] at hwne
        exact hwne rfl
      refine ⟨hset_len, by omega, ?_, ?_, ?_, ?_, ?_⟩
      · intro m hm
        rw [hset_ne m (by omega), hzero m (by omega)]
      · intro m
        by_cases hm : m = s.i
        · rw [hm, hset_self]
          exact hvnn
        · rw [hset_ne m hm]
          exact hnn m
      · intro m
        by_cases hm : m = s.i
        · subst hm
          rw [hset_self]
          exact iff_of_true hv (by simp)
        · rw [hset_ne m hm, List.mem_append]
          constructor
          · exact fun h => Or.inl ((hiff m).mp h)
          · rintro (h | h)
            · exact (hiff m).mpr h
            · exact absurd (by simpa using h) hm
      · rw [List.pairwise_append]
        refine ⟨hsort, List.pairwise_singleton _ _, ?_⟩
        intro a ha b hb
        rw [List.mem_singleton] at hb
        subst hb
        exact (hmem a ha).2.2
      · intro j hj
        rw [List.mem_append] at hj
        rcases hj with hj | hj
        · exact ⟨(hmem j hj).1, (hmem j hj).2.1,
            Nat.lt_trans (hmem j hj).2.2 (by omega)⟩
        · rw [List.mem_singleton] at hj
          subst hj
          exact ⟨hil, hi1, by omega⟩
    · rw [stepBody_reject data l av diff s hout hv]
      simp only [ScanInv]
      have hv0 : candRSI data l av s = 0 := le_antisymm (not_lt.mp hv) hvnn
      refine ⟨hset_len, by omega, ?_, ?_, ?_, hsort, ?_⟩
      · intro m hm
        rw [hset_ne m (by omega), hzero m (by omega)]
      · intro m
        by_cases hm : m = s.i
        · rw [hm, hset_self]
          exact hvnn
        · rw [hset_ne m hm]
          exact hnn m
      · intro m
        by_cases hm : m = s.i
        · subst hm
          rw [hset_self, hv0]
          exact iff_of_false (lt_irrefl 0) hnotmem
        · rw [hset_ne m hm]
          exact hiff m
      · intro j hj
        exact ⟨(hmem j hj).1, (hmem j hj).2.1,
          Nat.lt_trans (hmem j hj).2.2 (by omega)⟩
  · rw [stepBody_smooth data l av diff s hout]
    simp only [ScanInv]
    refine ⟨hlen, by omega, ?_, hnn, hiff, hsort, ?_⟩
    · intro m hm
      exact hzero m (by omega)
    · intro j hj
      exact ⟨(hmem j hj).1, (hmem j hj).2.1,
        Nat.lt_trans (hmem j hj).2.2 (by omega)⟩

theorem scanInv_loop (data : List ℚ) (l : ℕ) (av diff : ℚ) :
    ∀ (fuel : ℕ) (s : RState), ScanInv data.length l s →
      ScanInv data.length l (scanLoop data l av diff fuel s)
  | 0, _, h => h
  | fuel + 1, s, h => by
    rw [scanLoop]
    by_cases hi : s.i < data.length
    · rw [if_pos hi]
      exact scanInv_loop data l av diff fuel _ (scanInv_step data l av diff s hi h)
    · rw [if_neg hi]
      exact h

/-- Everything the invariant yields about the final output of the scan. -/
theorem rodionov_scan_spec (data : List ℚ) (l : ℕ) (av diff : ℚ) :
    (rodionov_scan data l av diff).2.length = data.length ∧
    (∀ m, 0 ≤ (rodionov_scan data l av diff).2.getD m 0) ∧
    (∀ m, 0 < (rodionov_scan data l av diff).2.getD m 0 ↔
      m ∈ (rodionov_scan data l av diff).1) ∧
    (rodionov_scan data l av diff).1.Pairwise (fun a b => a < b) ∧
    ∀ j ∈ (rodionov_scan data l av diff).1, l + 1 ≤ j ∧ j + 1 < data.length := by
  have h := scanInv_loop data l av diff data.length (initState data l diff)
    (scanInv_init data l diff)
  obtain ⟨hlen, _, _, hnn, hiff, hsort, hmem⟩ := h
  exact ⟨hlen, hnn, hiff, hsort, fun j hj => ⟨(hmem j hj).1, (hmem j hj).2.1⟩⟩

/-! ## Claim theorems: output shape (C1, C2, C10) and determinism (C9) -/

/-- C1: for every input satisfying the preconditions the RSI trace has the
input's length, every entry is non-negative, an entry is positive exactly
when its index is in the shift-indices output, and entries at positions not
in the shift-indices output are exactly `0`. -/
theorem rsi_trace_matches_shifts (tppf : ℚ → ℤ → ℚ) (sqrtF : ℚ → ℚ)
    (data : List ℚ) (l : ℕ) (p : ℚ)
    (hl : 1 ≤ l) (hln : l < data.length) (hp0 : 0 < p) (hp1 : p < 1)
    (hvar : avg_var data l ≠ 0) :
    (rodionov_regimes tppf sqrtF data l p).2.length = data.length ∧
    ∀ m, 0 ≤ (rodionov_regimes tppf sqrtF data l p).2.getD m 0 ∧
      (0 < (rodionov_regimes tppf sqrtF data l p).2.getD m 0 ↔
        m ∈ (rodionov_regimes tppf sqrtF data l p).1) ∧
      (m ∉ (rodionov_regimes tppf sqrtF data l p).1 →
        (rodionov_regimes tppf sqrtF data l p).2.getD m 0 = 0) := by
  obtain ⟨hlen, hnn, hiff, -, -⟩ := rodionov_scan_spec data l (avg_var data l)
    (|tppf p (2 * (l : ℤ) - 2)| * sqrtF (2 * avg_var data l / l))
  refine ⟨hlen, fun m => ⟨hnn m, hiff m, fun hm => ?_⟩⟩
  exact le_antisymm (not_lt.mp (mt (hiff m).mp hm)) (hnn m)

/-- Witness for C1 at a concrete input. -/
theorem rsi_trace_matches_shifts_witness :
    (rodionov_regimes (fun _ _ => -2) (fun x => x) [0, 0, 0, 3, 0] 2 (1/20)).2.length
      = ([0, 0, 0, 3, 0] : List ℚ).length ∧
    ∀ m, 0 ≤ (rodionov_regimes (fun _ _ => -2) (fun x => x) [0, 0, 0, 3, 0] 2 (1/20)).2.getD m 0 ∧
      (0 < (rodionov_regimes (fun _ _ => -2) (fun x => x) [0, 0, 0, 3, 0] 2 (1/20)).2.getD m 0 ↔
        m ∈ (rodionov_regimes (fun _ _ => -2) (fun x => x) [0, 0, 0, 3, 0] 2 (1/20)).1) ∧
      (m ∉ (rodionov_regimes (fun _ _ => -2) (fun x => x) [0, 0, 0, 3, 0] 2 (1/20)).1 →
        (rodionov_regimes (fun _ _ => -2) (fun x => x) [0, 0, 0, 3, 0] 2 (1/20)).2.getD m 0 = 0) :=
  rsi_trace_matches_shifts (fun _ _ => -2) (fun x => x) [0, 0, 0, 3, 0] 2 (1/20)
    (by norm_num) (by norm_num) (by norm_num) (by norm_num)
    (by norm_num [avg_var, npMean, npVar, List.range_succ])

/-- C2: the returned shift-indices sequence is strictly increasing and
every element `j` satisfies `l + 1 ≤ j ≤ n - 1`. -/
theorem shift_indices_increasing_in_range (tppf : ℚ → ℤ → ℚ) (sqrtF : ℚ → ℚ)
    (data : List ℚ) (l : ℕ) (p : ℚ)
    (hl : 1 ≤ l) (hln : l < data.length) (hp0 : 0 < p) (hp1 : p < 1)
    (hvar : avg_var data l ≠ 0) :
    (rodionov_regimes tppf sqrtF data l p).1.Pairwise (fun a b => a < b) ∧
    ∀ j ∈ (rodionov_regimes tppf sqrtF data l p).1,
      l + 1 ≤ j ∧ j ≤ data.length - 1 := by
  obtain ⟨-, -, -, hsort, hmem⟩ := rodionov_scan_spec data l (avg_var data l)
    (|tppf p (2 * (l : ℤ) - 2)| * sqrtF (2 * avg_var data l / l))
  refine ⟨hsort, fun j hj => ⟨(hmem j hj).1, ?_⟩⟩
  have := (hmem j hj).2
  omega

/-- Witness for C2 at a concrete input. -/
theorem shift_indices_increasing_in_range_witness :
    (rodionov_regimes (fun _ _ => -2) (fun x => x) [0, 0, 0, 3, 0] 2 (1/10)).1.Pairwise
      (fun a b => a < b) ∧
    ∀ j ∈ (rodionov_regimes (fun _ _ => -2) (fun x => x) [0, 0, 0, 3, 0] 2 (1/10)).1,
      2 + 1 ≤ j ∧ j ≤ ([0, 0, 0, 3, 0] : List ℚ).length - 1 :=
  shift_indices_increasing_in_range (fun _ _ => -2) (fun x => x) [0, 0, 0, 3, 0] 2 (1/10)
    (by norm_num) (by norm_num) (by norm_num) (by norm_num)
    (by norm_num [avg_var, npMean, npVar, List.range_succ])

/-- C10: the last index `n - 1` never appears in the shift-indices output —
a candidate flagged there has an empty forward window, so its RSI stays `0`
— and every confirmed shift index lies in `[l+1, n-2]`. -/
theorem last_index_never_confirmed (tppf : ℚ → ℤ → ℚ) (sqrtF : ℚ → ℚ)
    (data : List ℚ) (l : ℕ) (p : ℚ)
    (hl : 1 ≤ l) (hln : l < data.length) (hp0 : 0 < p) (hp1 : p < 1)
    (hvar : avg_var data l ≠ 0) :
    data.length - 1 ∉ (rodionov_regimes tppf sqrtF data l p).1 ∧
    ∀ j ∈ (rodionov_regimes tppf sqrtF data l p).1,
      l + 1 ≤ j ∧ j ≤ data.length - 2 := by
  obtain ⟨-, -, -, -, hmem⟩ := rodionov_scan_spec data l (avg_var data l)
    (|tppf p (2 * (l : ℤ) - 2)| * sqrtF (2 * avg_var data l / l))
  constructor
  · intro hj
    have := (hmem _ hj).2
    omega
  · intro j hj
    have := (hmem j hj).2
    exact ⟨(hmem j hj).1, by omega⟩

/-- Witness for C10 at a concrete input. -/
theorem last_index_never_confirmed_witness :
    ([0, 0, 0, 3, 0] : List ℚ).length - 1
      ∉ (rodionov_regimes (fun _ _ => -2) (fun x => x) [0, 0, 0, 3, 0] 2 (1/4)).1 ∧
    ∀ j ∈ (rodionov_regimes (fun _ _ => -2) (fun x => x) [0, 0, 0, 3, 0] 2 (1/4)).1,
      2 + 1 ≤ j ∧ j ≤ ([0, 0, 0, 3, 0] : List ℚ).length - 2 :=
  last_index_never_confirmed (fun _ _ => -2) (fun x => x) [0, 0, 0, 3, 0] 2 (1/4)
    (by norm_num) (by norm_num) (by norm_num) (by norm_num)
    (by norm_num [avg_var, npMean, npVar, List.range_succ])

/-- C9: the detector is deterministic — equal inputs give identical
shift-indices lists and identical RSI traces.  Freedom from side effects is
reflected by the embedding itself: `rodionov_regimes` is a pure function of
its arguments and leaves `data` untouched. -/
theorem detector_deterministic (tppf : ℚ → ℤ → ℚ) (sqrtF : ℚ → ℚ)
    (d1 d2 : List ℚ) (l1 l2 : ℕ) (p1 p2 : ℚ)
    (hd : d1 = d2) (hl : l1 = l2) (hp : p1 = p2) :
    rodionov_regimes tppf sqrtF d1 l1 p1 = rodionov_regimes tppf sqrtF d2 l2 p2 := by
  rw [hd, hl, hp]

/-- Witness for C9 at a concrete input. -/
theorem detector_deterministic_witness :
    rodionov_regimes (fun _ _ => -2) (fun x => x) [1, 2] 1 (1/2)
      = rodionov_regimes (fun _ _ => -2) (fun x => x) [1, 2] 1 (1/2) :=
  detector_deterministic (fun _ _ => -2) (fun x => x) [1, 2] [1, 2] 1 1 (1/2) (1/2)
    rfl rfl rfl

/-! ## Claim theorems: failure handling (C7, C8)

The source contains no parameter validation and no failure path at all, so
the embedding shows what it actually does on the spec's failure scenarios:
it returns a normal (empty) result. -/

theorem scanLoop_stuck (data : List ℚ) (l : ℕ) (av diff : ℚ) (fuel : ℕ)
    (s : RState) (h : ¬s.i < data.length) :
    scanLoop data l av diff fuel s = s := by
  cases fuel
  · rfl
  · rw [scanLoop, if_neg h]

/-- C7 (code evidence): for `l ≥ n` the code does not fail with an
`InvalidParameter` condition — the scan loop is never entered (the source
first computes `np.mean([])`, a NaN threshold, from the empty window list)
and the call returns the empty shift list with an all-zero RSI trace. -/
theorem invalid_length_returns_empty (tppf : ℚ → ℤ → ℚ) (sqrtF : ℚ → ℚ)
    (data : List ℚ) (l : ℕ) (p : ℚ) (h : data.length ≤ l) :
    rodionov_regimes tppf sqrtF data l p = ([], List.replicate data.length 0) := by
  show rodionov_scan data l _ _ = _
  simp only [rodionov_scan]
  rw [scanLoop_stuck _ _ _ _ _ _ (by simp only [initState]; omega)]
  simp [initState]

/-- Witness for C7 at the concrete failing input `data = [1,2,3]`, `l = 3`. -/
theorem invalid_length_returns_empty_witness :
    rodionov_regimes (fun _ _ => -2) (fun x => x) [1, 2, 3] 3 (1/20)
      = ([], List.replicate 3 0) :=
  invalid_length_returns_empty (fun _ _ => -2) (fun x => x) [1, 2, 3] 3 (1/20)
    (by norm_num)

theorem getD_replicate_lt (n m : ℕ) (c : ℚ) (h : m < n) :
    (List.replicate n c).getD m 0 = c := by
  rw [List.getD_eq_getElem?_getD, List.getElem?_replicate_of_lt h, Option.getD_some]

theorem npMean_replicate (k : ℕ) (c : ℚ) (hk : k ≠ 0) :
    npMean (List.replicate k c) = c := by
  rw [npMean, List.sum_replicate, List.length_replicate, nsmul_eq_mul]
  exact mul_div_cancel_left₀ c (by exact_mod_cast hk)

theorem npVar_replicate (k : ℕ) (c : ℚ) : npVar (List.replicate k c) = 0 := by
  rcases Nat.eq_zero_or_pos k with hk | hk
  · subst hk
    simp [npVar, npMean]
  · rw [npVar, npMean_replicate k c (by omega), List.map_replicate, sub_self]
    simp only [ne_eq, zero_pow, OfNat.ofNat_ne_zero, not_false_iff]
    rcases Nat.eq_zero_or_pos k with hk0 | _
    · omega
    · rw [npMean_replicate k _ (by omega)]

/-- The average sliding-window variance of a constant series is `0`. -/
theorem avg_var_replicate (n l : ℕ) (c : ℚ) :
    avg_var (List.replicate n c) l = 0 := by
  rw [avg_var]
  have hmap : (List.range ((List.replicate n c).length - l)).map
      (fun i => npVar (((List.replicate n c).drop i).take l))
        = (List.range ((List.replicate n c).length - l)).map (fun _ => (0 : ℚ)) := by
    apply List.map_congr_left
    intro i _
    rw [List.drop_replicate, List.take_replicate, npVar_replicate]
  rw [hmap, List.map_const', npMean, List.sum_replicate, smul_zero, zero_div]

/-- With `diff = 0` and an all-constant series matching the regime mean,
every observation stays inside the (degenerate) band, so the scan only
performs smoothing updates and records nothing. -/
theorem scanLoop_const (n l : ℕ) (av diff : ℚ) (c : ℚ) (hl : l ≠ 0) :
    ∀ (fuel : ℕ) (s : RState), s.r1 = c → s.r1_lower = c → s.r1_upper = c →
      (scanLoop (List.replicate n c) l av diff fuel s).shifts = s.shifts ∧
      (scanLoop (List.replicate n c) l av diff fuel s).rsi = s.rsi
  | 0, s, _, _, _ => ⟨rfl, rfl⟩
  | fuel + 1, s, hr1, hlo, hup => by
    rw [scanLoop]
    by_cases hi : s.i < (List.replicate n c).length
    · rw [if_pos hi]
      have hx : (List.replicate n c).getD s.i 0 = c :=
        getD_replicate_lt _ _ _ (by simpa using hi)
      have hout : ¬((List.replicate n c).getD s.i 0 < s.r1_lower ∨
          s.r1_upper < (List.replicate n c).getD s.i 0) := by
        rw [hx, hlo, hup]
        simp
      rw [stepBody_smooth _ _ _ _ _ hout]
      refine scanLoop_const n l av diff c hl fuel _ ?_ hlo hup
      show (((l : ℚ) - 1) * s.r1 + (List.replicate n c).getD s.i 0) / l = c
      rw [hx, hr1]
      have hlq : (l : ℚ) ≠ 0 := by exact_mod_cast hl
      field_simp
      ring
    · rw [if_neg hi]
      exact ⟨rfl, rfl⟩

/-- On an all-constant input the detector returns no shifts and an all-zero
trace (for any model of the external primitives with `sqrt 0 = 0`). -/
theorem rodionov_regimes_constant (tppf : ℚ → ℤ → ℚ) (sqrtF : ℚ → ℚ)
    (hs : sqrtF 0 = 0) (n l : ℕ) (c p : ℚ) (hl : 1 ≤ l) (hn : 1 ≤ n) :
    rodionov_regimes tppf sqrtF (List.replicate n c) l p
      = ([], List.replicate n 0) := by
  have hav : avg_var (List.replicate n c) l = 0 := avg_var_replicate n l c
  show rodionov_scan (List.replicate n c) l (avg_var (List.replicate n c) l)
    (|tppf p (2 * (l : ℤ) - 2)| * sqrtF (2 * avg_var (List.replicate n c) l / l)) = _
  rw [hav]
  norm_num [hs]
  have hinit_r1 : npMean (List.replicate (min l n) c) = c :=
    npMean_replicate _ _ (by omega)
  have h1 : (initState (List.replicate n c) l 0).r1 = c := by
    simp [initState, hinit_r1]
  have h2 : (initState (List.replicate n c) l 0).r1_lower = c := by
    simp [initState, hinit_r1]
  have h3 : (initState (List.replicate n c) l 0).r1_upper = c := by
    simp [initState, hinit_r1]
  have hfin := scanLoop_const n l 0 0 c (by omega)
    (List.replicate n c).length (initState (List.replicate n c) l 0) h1 h2 h3
  simp only [rodionov_scan]
  rw [hfin.1, hfin.2]
  simp [initState]

/-- C8 (code evidence): on the spec's degenerate Scenario B input — 50
identical values, `l = 10` — the code does not fail with a
`DegenerateInput` condition: the zero variance makes `diff = 0`, no
candidate is ever flagged, and the call returns the empty shift list with
an all-zero RSI trace. -/
theorem degenerate_input_returns_empty :
    rodionov_regimes (fun _ _ => -2) (fun x => x) (List.replicate 50 1) 10 (1/20)
      = ([], List.replicate 50 0) :=
  rodionov_regimes_constant (fun _ _ => -2) (fun x => x) rfl 50 10 1 (1/20)
    (by norm_num) (by norm_num)

/-! ## Claim theorems: the candidate window computations (C4, C5) -/

/-- Bridge between the source-side accumulation over the materialized window
slice and the spec-side accumulation over explicit data indices. -/
theorem rsiAccum_eq_rsiSpecGo (data : List ℚ) (avl dj r1 tr2 : ℚ) :
    ∀ (cnt k : ℕ) (s : ℚ), k + cnt ≤ data.length →
      rsiAccum avl dj r1 tr2 ((data.drop k).take cnt) s
        = rsiSpecGo data avl dj r1 tr2 k cnt s
  | 0, k, s, _ => by
    rw [List.take_zero]
    rfl
  | cnt + 1, k, s, h => by
    have hk : k < data.length := by omega
    rw [List.drop_eq_getElem_cons hk, List.take_succ_cons]
    have hx : data[k] = data.getD k 0 := (List.getD_eq_getElem _ _ hk).symm
    simp only [rsiAccum, rsiSpecGo, hx]
    by_cases h1 : (if r1 < dj then s + (data.getD k 0 - tr2) / avl
        else if dj < r1 then s + (tr2 - data.getD k 0) / avl else s) < 0
    · rw [if_pos h1, if_pos h1]
    · rw [if_neg h1, if_neg h1]
      exact rsiAccum_eq_rsiSpecGo data avl dj r1 tr2 cnt (k + 1) _ (by omega)

/-- A contiguous slice `data[j : j+cnt]` materialized by `drop`/`take`
equals the index-by-index description used by the spec formulas. -/
theorem slice_eq_range_map (data : List ℚ) (j cnt : ℕ) (h : j + cnt ≤ data.length) :
    (data.drop j).take cnt = (List.range cnt).map (fun k => data.getD (j + k) 0) := by
  apply List.ext_getElem
  · rw [List.length_take, List.length_drop, List.length_map, List.length_range]
    omega
  · intro m h1 h2
    rw [List.length_take, List.length_drop] at h1
    rw [List.length_map, List.length_range] at h2
    rw [List.getElem_take, List.getElem_drop, List.getElem_map, List.getElem_range]
    exact (List.getD_eq_getElem _ _ (by omega)).symm

/-- C4: when a candidate is flagged at `j = s.i` (the observation lies
outside `[r1_lower, r1_upper]`), the RSI value stored at `j` equals the
spec's accumulation: `test_r2` is the crossed bound, each index
`k ∈ [j+1, min(j+l, n))` contributes `(data[k] - test_r2) / (avg_var*l)`
for an upward candidate and `(test_r2 - data[k]) / (avg_var*l)` for a
downward one, clamping to `0` and stopping as soon as the sum drops below
zero. -/
theorem candidate_rsi_accumulation (data : List ℚ) (l : ℕ) (av diff : ℚ)
    (s : RState) (hlen : s.rsi.length = data.length) (hi : s.i < data.length)
    (hout : data.getD s.i 0 < s.r1_lower ∨ s.r1_upper < data.getD s.i 0) :
    (stepBody data l av diff s).rsi.getD s.i 0
      = rsiSpec data (av * l) (data.getD s.i 0) s.r1
          (if data.getD s.i 0 < s.r1_lower then s.r1_lower else s.r1_upper) s.i l := by
  have hset : (stepBody data l av diff s).rsi
      = s.rsi.set s.i (candRSI data l av s) := by
    by_cases hv : 0 < candRSI data l av s
    · rw [stepBody_confirm data l av diff s hout hv]
    · rw [stepBody_reject data l av diff s hout hv]
  rw [hset, getD_set_self _ _ _ (hlen ▸ hi), candRSI, candTr2, rsiSpec]
  have htake : (data.drop (s.i + 1)).take (l - 1)
      = (data.drop (s.i + 1)).take (min (s.i + l) data.length - (s.i + 1)) := by
    rw [List.take_eq_take, List.length_drop]
    omega
  rw [htake]
  exact rsiAccum_eq_rsiSpecGo data (av * l) _ _ _ _ (s.i + 1) 0 (by omega)

/-- Witness for C4: a flagged upward candidate at index 3 of a concrete
series. -/
theorem candidate_rsi_accumulation_witness :
    (stepBody [0, 0, 0, 3, 0] 2 (3/4) (1/2)
        ⟨3, 0, -(1/2), 1/2, [], [0, 0, 0, 0, 0]⟩).rsi.getD 3 0
      = rsiSpec [0, 0, 0, 3, 0] (3/4 * ((2 : ℕ) : ℚ))
          (([0, 0, 0, 3, 0] : List ℚ).getD 3 0) 0
          (if ([0, 0, 0, 3, 0] : List ℚ).getD 3 0 < -(1/2) then -(1/2) else 1/2) 3 2 :=
  candidate_rsi_accumulation [0, 0, 0, 3, 0] 2 (3/4) (1/2)
    ⟨3, 0, -(1/2), 1/2, [], [0, 0, 0, 0, 0]⟩ rfl (by norm_num) (by norm_num)

/-- The source's new regime mean over the materialized (truncated) slice
equals the spec's `mean(data[j : min(j+l, n)])`. -/
theorem newMean_eq_specSliceMean (data : List ℚ) (l : ℕ) (s : RState)
    (hj : s.i ≤ data.length) :
    newMean data l s = specSliceMean data s.i l := by
  rw [newMean, specSliceMean]
  have htake : (data.drop s.i).take l
      = (data.drop s.i).take (min (s.i + l) data.length - s.i) := by
    rw [List.take_eq_take, List.length_drop]
    omega
  rw [htake, slice_eq_range_map data s.i _ (by omega), npMean,
    List.length_map, List.length_range]

/-- C5: after the accumulation for a candidate at `j = s.i` ends, if
`rsi[j] > 0` the shift is confirmed — `j` is appended to the shift list,
the regime mean becomes `mean(data[j : min(j+l, n)])` (window truncated at
the end of the series), and the bounds are recomputed as that mean `∓ diff`
with the same fixed `diff`; if `rsi[j] = 0` no shift is recorded and the
previous regime mean is retained. -/
theorem shift_confirmation (data : List ℚ) (l : ℕ) (av diff : ℚ) (s : RState)
    (hi : s.i < data.length)
    (hout : data.getD s.i 0 < s.r1_lower ∨ s.r1_upper < data.getD s.i 0) :
    (0 < candRSI data l av s →
      (stepBody data l av diff s).shifts = s.shifts ++ [s.i] ∧
      (stepBody data l av diff s).r1 = specSliceMean data s.i l ∧
      (stepBody data l av diff s).r1_lower = (stepBody data l av diff s).r1 - diff ∧
      (stepBody data l av diff s).r1_upper = (stepBody data l av diff s).r1 + diff) ∧
    (candRSI data l av s = 0 →
      (stepBody data l av diff s).shifts = s.shifts ∧
      (stepBody data l av diff s).r1 = s.r1 ∧
      (stepBody data l av diff s).r1_lower = s.r1_lower ∧
      (stepBody data l av diff s).r1_upper = s.r1_upper) := by
  constructor
  · intro hv
    rw [stepBody_confirm data l av diff s hout hv]
    exact ⟨rfl, newMean_eq_specSliceMean data l s (le_of_lt hi), rfl, rfl⟩
  · intro hv0
    rw [stepBody_reject data l av diff s hout (by rw [hv0]; exact lt_irrefl 0)]
    exact ⟨rfl, rfl, rfl, rfl⟩

/-- Witness for C5: the same flagged candidate as for C4. -/
theorem shift_confirmation_witness :
    (0 < candRSI [0, 0, 0, 3, 3, 3] 2 (9/16) ⟨3, 0, -(1/2), 1/2, [], [0, 0, 0, 0, 0, 0]⟩ →
      (stepBody [0, 0, 0, 3, 3, 3] 2 (9/16) (1/2)
          ⟨3, 0, -(1/2), 1/2, [], [0, 0, 0, 0, 0, 0]⟩).shifts = [] ++ [3] ∧
      (stepBody [0, 0, 0, 3, 3, 3] 2 (9/16) (1/2)
          ⟨3, 0, -(1/2), 1/2, [], [0, 0, 0, 0, 0, 0]⟩).r1
        = specSliceMean [0, 0, 0, 3, 3, 3] 3 2 ∧
      (stepBody [0, 0, 0, 3, 3, 3] 2 (9/16) (1/2)
          ⟨3, 0, -(1/2), 1/2, [], [0, 0, 0, 0, 0, 0]⟩).r1_lower
        = (stepBody [0, 0, 0, 3, 3, 3] 2 (9/16) (1/2)
            ⟨3, 0, -(1/2), 1/2, [], [0, 0, 0, 0, 0, 0]⟩).r1 - 1/2 ∧
      (stepBody [0, 0, 0, 3, 3, 3] 2 (9/16) (1/2)
          ⟨3, 0, -(1/2), 1/2, [], [0, 0, 0, 0, 0, 0]⟩).r1_upper
        = (stepBody [0, 0, 0, 3, 3, 3] 2 (9/16) (1/2)
            ⟨3, 0, -(1/2), 1/2, [], [0, 0, 0, 0, 0, 0]⟩).r1 + 1/2) ∧
    (candRSI [0, 0, 0, 3, 3, 3] 2 (9/16) ⟨3, 0, -(1/2), 1/2, [], [0, 0, 0, 0, 0, 0]⟩ = 0 →
      (stepBody [0, 0, 0, 3, 3, 3] 2 (9/16) (1/2)
          ⟨3, 0, -(1/2), 1/2, [], [0, 0, 0, 0, 0, 0]⟩).shifts = [] ∧
      (stepBody [0, 0, 0, 3, 3, 3] 2 (9/16) (1/2)
          ⟨3, 0, -(1/2), 1/2, [], [0, 0, 0, 0, 0, 0]⟩).r1 = 0 ∧
      (stepBody [0, 0, 0, 3, 3, 3] 2 (9/16) (1/2)
          ⟨3, 0, -(1/2), 1/2, [], [0, 0, 0, 0, 0, 0]⟩).r1_lower = -(1/2) ∧
      (stepBody [0, 0, 0, 3, 3, 3] 2 (9/16) (1/2)
          ⟨3, 0, -(1/2), 1/2, [], [0, 0, 0, 0, 0, 0]⟩).r1_upper = 1/2) :=
  shift_confirmation [0, 0, 0, 3, 3, 3] 2 (9/16) (1/2)
    ⟨3, 0, -(1/2), 1/2, [], [0, 0, 0, 0, 0, 0]⟩ (by norm_num) (by norm_num)

/-! ## Claim theorems: the regime-state bounds (C6)

The source recomputes `r1_lower`/`r1_upper` only on confirmed shifts
(src/rodionov.py lines 67-69); the smoothing branch (lines 72-74) updates
`r1` but leaves both bounds at their previous values, so the claimed
invariant `r1_lower = r1 - diff ∧ r1_upper = r1 + diff` does not hold at
every point of the scan. -/

/-- C6 counterexample: a concrete valid run (`data = [0,0,0,1,0]`, `l = 2`,
threshold `diff = 5/3` as produced by `t_stat = 20` and `sqrt = id` on this
series, whose `avg_var` is `1/12`) in which, one loop iteration into the
scan — an in-bounds observation that triggers the smoothing update —
`r1_lower ≠ r1 - diff`. -/
theorem regime_bounds_invariant_cex :
    (scanLoop [0, 0, 0, 1, 0] 2 (avg_var [0, 0, 0, 1, 0] 2) (5/3) 1
        (initState [0, 0, 0, 1, 0] 2 (5/3))).r1_lower
      ≠ (scanLoop [0, 0, 0, 1, 0] 2 (avg_var [0, 0, 0, 1, 0] 2) (5/3) 1
          (initState [0, 0, 0, 1, 0] 2 (5/3))).r1 - 5/3 := by
  norm_num [scanLoop, stepBody, initState, candRSI, candTr2, newMean,
    rsiAccum, avg_var, npMean, npVar, List.range_succ]

/-- C6 amended: the relation `r1_lower = r1 - diff ∧ r1_upper = r1 + diff`
holds at initialization and is re-established by every confirmed shift, but
an in-bounds observation's smoothing update changes `r1` while leaving both
bounds at their previous values (they are not recomputed from the updated
mean). -/
theorem regime_bounds_amended (data : List ℚ) (l : ℕ) (av diff : ℚ)
    (s : RState) (hi : s.i < data.length) :
    ((initState data l diff).r1_lower = (initState data l diff).r1 - diff ∧
     (initState data l diff).r1_upper = (initState data l diff).r1 + diff) ∧
    ((stepBody data l av diff s).r1_lower =
      if (data.getD s.i 0 < s.r1_lower ∨ s.r1_upper < data.getD s.i 0) ∧
          0 < candRSI data l av s
      then (stepBody data l av diff s).r1 - diff else s.r1_lower) ∧
    ((stepBody data l av diff s).r1_upper =
      if (data.getD s.i 0 < s.r1_lower ∨ s.r1_upper < data.getD s.i 0) ∧
          0 < candRSI data l av s
      then (stepBody data l av diff s).r1 + diff else s.r1_upper) ∧
    ((stepBody data l av diff s).r1 =
      if data.getD s.i 0 < s.r1_lower ∨ s.r1_upper < data.getD s.i 0 then
        if 0 < candRSI data l av s then newMean data l s else s.r1
      else (((l : ℚ) - 1) * s.r1 + data.getD s.i 0) / l) := by
  refine ⟨⟨by simp [initState], by simp [initState]⟩, ?_⟩
  by_cases hout : data.getD s.i 0 < s.r1_lower ∨ s.r1_upper < data.getD s.i 0
  · by_cases hv : 0 < candRSI data l av s
    · rw [stepBody_confirm data l av diff s hout hv]
      refine ⟨?_, ?_, ?_⟩
      · rw [if_pos ⟨hout, hv⟩]
      · rw [if_pos ⟨hout, hv⟩]
      · rw [if_pos hout, if_pos hv]
    · rw [stepBody_reject data l av diff s hout hv]
      refine ⟨?_, ?_, ?_⟩
      · rw [if_neg (fun h => hv h.2)]
      · rw [if_neg (fun h => hv h.2)]
      · rw [if_pos hout, if_neg hv]
  · rw [stepBody_smooth data l av diff s hout]
    refine ⟨?_, ?_, ?_⟩
    · rw [if_neg (fun h => hout h.1)]
    · rw [if_neg (fun h => hout h.1)]
    · rw [if_neg hout]

/-- Witness for the amended C6 at a concrete in-scan state. -/
theorem regime_bounds_amended_witness :
    ((initState [0, 3] 1 1).r1_lower = (initState [0, 3] 1 1).r1 - 1 ∧
     (initState [0, 3] 1 1).r1_upper = (initState [0, 3] 1 1).r1 + 1) ∧
    ((stepBody [0, 3] 1 1 1 ⟨1, 0, -1, 1, [], [0, 0]⟩).r1_lower =
      if (([0, 3] : List ℚ).getD 1 0 < -1 ∨ 1 < ([0, 3] : List ℚ).getD 1 0) ∧
          0 < candRSI [0, 3] 1 1 ⟨1, 0, -1, 1, [], [0, 0]⟩
      then (stepBody [0, 3] 1 1 1 ⟨1, 0, -1, 1, [], [0, 0]⟩).r1 - 1 else -1) ∧
    ((stepBody [0, 3] 1 1 1 ⟨1, 0, -1, 1, [], [0, 0]⟩).r1_upper =
      if (([0, 3] : List ℚ).getD 1 0 < -1 ∨ 1 < ([0, 3] : List ℚ).getD 1 0) ∧
          0 < candRSI [0, 3] 1 1 ⟨1, 0, -1, 1, [], [0, 0]⟩
      then (stepBody [0, 3] 1 1 1 ⟨1, 0, -1, 1, [], [0, 0]⟩).r1 + 1 else 1) ∧
    ((stepBody [0, 3] 1 1 1 ⟨1, 0, -1, 1, [], [0, 0]⟩).r1 =
      if ([0, 3] : List ℚ).getD 1 0 < -1 ∨ 1 < ([0, 3] : List ℚ).getD 1 0 then
        if 0 < candRSI [0, 3] 1 1 ⟨1, 0, -1, 1, [], [0, 0]⟩
        then newMean [0, 3] 1 ⟨1, 0, -1, 1, [], [0, 0]⟩ else 0
      else ((((1 : ℕ) : ℚ) - 1) * 0 + ([0, 3] : List ℚ).getD 1 0) / ((1 : ℕ) : ℚ)) :=
  regime_bounds_amended [0, 3] 1 1 1 ⟨1, 0, -1, 1, [], [0, 0]⟩ (by norm_num)

/-! ## Claim theorems: the threshold computation (C3) -/

/-- The source's `np.var` of a full-length window equals the spec's
population variance (divisor `l`, not `l-1`) written over explicit
indices. -/
theorem npVar_window (data : List ℚ) (i l : ℕ) (h : i + l ≤ data.length) :
    npVar ((data.drop i).take l) = specWindowVar data i l := by
  rw [slice_eq_range_map data i l h, npVar, specWindowVar]
  simp only [npMean, List.map_map, List.length_map, List.length_range,
    Function.comp_def]

/-- The source's `avg_var` equals the spec formula: the arithmetic mean,
over start offsets `i ∈ [0, n-l)`, of the population variance of
`data[i : i+l]`. -/
theorem avg_var_eq_specAvgVar (data : List ℚ) (l : ℕ) :
    avg_var data l = specAvgVar data l := by
  rw [avg_var, specAvgVar]
  have hmap : (List.range (data.length - l)).map
      (fun i => npVar ((data.drop i).take l))
        = (List.range (data.length - l)).map (fun i => specWindowVar data i l) :=
    List.map_congr_left (fun i hi => npVar_window data i l (by
      rw [List.mem_range] at hi
      omega))
  rw [hmap, npMean, List.length_map, List.length_range]

/-- C3: the threshold quantities are computed once, before the scan:
`t_stat = |InverseStudentT(p, 2l-2)|` (an external primitive), `avg_var` is
the mean over `i ∈ [0, n-l)` of the population variance (divisor `l`) of
`data[i : i+l]`, and the scan's threshold is
`diff = t_stat * sqrt(2 * avg_var / l)`. -/
theorem threshold_computation (tppf : ℚ → ℤ → ℚ) (sqrtF : ℚ → ℚ)
    (data : List ℚ) (l : ℕ) (p : ℚ) :
    avg_var data l = specAvgVar data l ∧
    rodionov_regimes tppf sqrtF data l p
      = rodionov_scan data l (avg_var data l)
          (|tppf p (2 * (l : ℤ) - 2)| * sqrtF (2 * avg_var data l / l)) :=
  ⟨avg_var_eq_specAvgVar data l, rfl⟩

/-- End-to-end evaluation of the embedded scan on a small series with one
upward shift, matching a hand trace of the source: the candidate at index 3
is confirmed with RSI `20/9` and the trace is zero elsewhere. -/
theorem rodionov_scan_sample_run :
    rodionov_scan [0, 0, 0, 3, 3, 3] 2 (9/16) (1/2)
      = ([3], [0, 0, 0, 20/9, 0, 0]) := by
  norm_num [rodionov_scan, scanLoop, stepBody, initState, rsiAccum,
    candRSI, candTr2, newMean, npMean, npVar, List.replicate]

end Rodionov
